import Mathlib

/-!
Verification of the BadgerDB buffer manager (`src/src/buffer.cpp`).

The C++ code is shallowly embedded: the buffer-manager state (descriptor
table, page pool, page-location hash table, clock hand) is a Lean structure,
each public operation is a pure function returning the new state together
with an optional raised error, and the external file collaborator is
represented by explicit parameters (a read oracle, an allocated page) plus
event logs recording the calls the buffer manager makes on it
(`writePage`, `allocatePage`, `deletePage`).

Machine integers (`std::uint32_t`, `PageId`, `FrameId`) are modelled as
`Nat`: all values involved stay far below `2^32` and the only arithmetic is
increment, decrement and `% numBufs`, none of which can overflow at the
sizes the buffer manager uses.
-/

namespace BadgerDB

abbrev FileId := Nat
abbrev PageId := Nat
abbrev FrameId := Nat

/-- A disk page as seen by the buffer manager: its page number and an
abstraction of its byte content. -/
structure Page where
  page_number : PageId
  data : Nat
deriving Repr, DecidableEq, Inhabited

/-- One entry of `bufDescTable`.  `file` is a `File*` in the source; `none`
models the null pointer of an unoccupied descriptor. -/
structure BufDesc where
  frameNo : FrameId
  file : Option FileId
  pageNo : PageId
  pinCnt : Nat
  dirty : Bool
  valid : Bool
  refbit : Bool
deriving Repr, DecidableEq, Inhabited

/-- Modelled from the spec: `BufDesc::Set` lives in `buffer.h`, which is not
in `src/`.  Spec section 4.4: `valid=true, file=file, page_no=page_no,
pin_count=1, dirty=false, refbit=true`. -/
def BufDesc.Set (d : BufDesc) (f : FileId) (p : PageId) : BufDesc :=
  { d with file := some f, pageNo := p, pinCnt := 1,
           dirty := false, valid := true, refbit := true }

/-- Modelled from the spec: `BufDesc::Clear` lives in `buffer.h`, which is
not in `src/`.  Spec section 4.4: `valid=false, file=unset, page_no=0,
pin_count=0, dirty=false, refbit=false`; `frame_no` is immutable. -/
def BufDesc.Clear (d : BufDesc) : BufDesc :=
  { d with file := none, pageNo := 0, pinCnt := 0,
           dirty := false, valid := false, refbit := false }

/-- A page-location map key: the `File*` identity and the page number. -/
abbrev HashKey := Option FileId × PageId

/-- Modelled from the spec: the `BufHashTbl` implementation is not in
`src/`.  Spec section 4.3 describes a map with `lookup` (fails NotFound),
`insert`, and `remove` (fails NotFound); an association list realizes it. -/
abbrev HashTbl := List (HashKey × FrameId)

def htLookup (t : HashTbl) (k : HashKey) : Option FrameId :=
  (t.find? (fun e => e.1 = k)).map Prod.snd

def htInsert (t : HashTbl) (k : HashKey) (v : FrameId) : HashTbl :=
  (k, v) :: t

/-- `remove` deletes the entry for `k`; `none` models the
`HashNotFoundException` raised when the key is absent. -/
def htRemove (t : HashTbl) (k : HashKey) : Option HashTbl :=
  match t with
  | [] => none
  | e :: rest =>
    if e.1 = k then some rest
    else (htRemove rest k).map (fun t => e :: t)

/-- The errors the buffer manager can raise.  `outOfFuel` is an artifact of
bounding the `while(true)` victim loop with fuel; `allocBuf_terminates_2N`
shows it is never produced when some frame is unpinned. -/
inductive BufError where
  | bufferExceeded
  | pagePinned
  | badBuffer
  | pageNotPinned
  | hashNotFound
  | outOfFuel
deriving Repr, DecidableEq

instance {ε α : Type} [DecidableEq ε] [DecidableEq α] : DecidableEq (Except ε α)
  | .ok a, .ok b =>
    if h : a = b then .isTrue (by rw [h]) else .isFalse (fun hh => h (Except.ok.inj hh))
  | .ok _, .error _ => .isFalse (fun hh => Except.noConfusion hh)
  | .error _, .ok _ => .isFalse (fun hh => Except.noConfusion hh)
  | .error a, .error b =>
    if h : a = b then .isTrue (by rw [h]) else .isFalse (fun hh => h (Except.error.inj hh))

/-- The whole mutable state of `BufMgr`, plus logs of the calls made on the
file collaborator. -/
structure BufState where
  numBufs : Nat
  frames : List BufDesc
  pool : List Page
  hashTbl : HashTbl
  clockHand : Nat
  writeLog : List (Option FileId × Page)
  allocLog : List FileId
  deleteLog : List (FileId × PageId)
deriving Repr, DecidableEq, Inhabited

/-- `BufMgr::BufMgr(bufs)`: descriptors get their index and `valid=false`
(the remaining fields are zeroed by the `BufDesc` constructor, modelled from
spec section 3: a frame begins invalid with everything else zeroed). -/
def mkBufMgr (bufs : Nat) : BufState where
  numBufs := bufs
  frames := (List.range bufs).map (fun i => ⟨i, none, 0, 0, false, false, false⟩)
  pool := (List.range bufs).map (fun _ => ⟨0, 0⟩)
  hashTbl := []
  clockHand := bufs - 1
  writeLog := []
  allocLog := []
  deleteLog := []

/-- `BufMgr::advanceClock`. -/
def advanceClock (st : BufState) : BufState :=
  { st with clockHand := (st.clockHand + 1) % st.numBufs }

/-- First loop of `BufMgr::flushFile` over frame indices `l`: validation
only, raising `PagePinned` or `BadBuffer`, mutating nothing. -/
def flushCheck (fo : Option FileId) (st : BufState) : List Nat → Option BufError
  | [] => none
  | i :: rest =>
    let d := st.frames.getD i default
    if d.file = fo then
      if d.pinCnt ≥ 1 then some .pagePinned
      else if d.pageNo = 0 then some .badBuffer
      else flushCheck fo st rest
    else flushCheck fo st rest

/-- Second loop of `BufMgr::flushFile` over frame indices `l`: write back
dirty frames, remove the map entry, `Clear()` the descriptor.  The
`hashTable->remove` call is not wrapped in a try block in the source, so a
missing key aborts the loop with `hashNotFound`, leaving the mutations made
so far in place (as a propagating C++ exception would). -/
def flushPass2 (fo : Option FileId) : List Nat → BufState → BufState × Option BufError
  | [], st => (st, none)
  | i :: rest, st =>
    let d := st.frames.getD i default
    if d.file = fo then
      let st1 :=
        if d.dirty then
          { st with writeLog := st.writeLog ++ [(d.file, st.pool.getD i default)],
                    frames := st.frames.set i { d with dirty := false } }
        else st
      let d1 := st1.frames.getD i default
      match htRemove st1.hashTbl (fo, d1.pageNo) with
      | none => (st1, some .hashNotFound)
      | some t =>
        flushPass2 fo rest
          { st1 with hashTbl := t, frames := st1.frames.set i d1.Clear }
    else flushPass2 fo rest st

/-- `BufMgr::flushFile(file)`. -/
def flushFile (fo : Option FileId) (st : BufState) : BufState × Option BufError :=
  match flushCheck fo st (List.range st.numBufs) with
  | some e => (st, some e)
  | none => flushPass2 fo (List.range st.numBufs) st

/-- The `while(true)` victim-selection loop of `BufMgr::allocBuf`, bounded
by fuel; each unit of fuel is exactly one `advanceClock()`. -/
def allocBufLoop : Nat → BufState → BufState × Except BufError FrameId
  | 0, st => (st, .error .outOfFuel)
  | fuel + 1, st =>
    let st1 := advanceClock st
    let i := st1.clockHand
    let d := st1.frames.getD i default
    if d.valid then
      if d.refbit then
        allocBufLoop fuel { st1 with frames := st1.frames.set i { d with refbit := false } }
      else if d.pinCnt ≥ 1 then
        allocBufLoop fuel st1
      else if d.dirty then
        match flushFile d.file st1 with
        | (st2, none) => (st2, .ok (st2.frames.getD i default).frameNo)
        | (st2, some e) => (st2, .error e)
      else (st1, .ok d.frameNo)
    else (st1, .ok d.frameNo)

/-- `BufMgr::allocBuf`: the pinned-pool scan, then the clock loop.  Fuel
`2 * numBufs` suffices whenever the scan passes (`allocBuf_terminates_2N`),
so the bounded loop is equivalent to the source's unbounded one. -/
def allocBuf (st : BufState) : BufState × Except BufError FrameId :=
  if (List.range st.numBufs).all (fun i => (st.frames.getD i default).pinCnt ≠ 0) then
    (st, .error .bufferExceeded)
  else
    allocBufLoop (2 * st.numBufs) st

/-- `BufMgr::readPage(file, pageNo, page)`.  `fRead` models
`file->readPage(pageNo)`; the returned `FrameId` models the pointer into
`bufPool`. -/
def readPage (fRead : PageId → Page) (f : FileId) (p : PageId) (st : BufState) :
    BufState × Except BufError FrameId :=
  match htLookup st.hashTbl (some f, p) with
  | some i =>
    let d := st.frames.getD i default
    ({ st with frames := st.frames.set i { d with refbit := true, pinCnt := d.pinCnt + 1 } },
     .ok i)
  | none =>
    match allocBuf st with
    | (st1, .error e) => (st1, .error e)
    | (st1, .ok i) =>
      let d := st1.frames.getD i default
      let st2 :=
        if d.valid then
          match htRemove st1.hashTbl (d.file, d.pageNo) with
          | none => st1
          | some t => { st1 with hashTbl := t }
        else st1
      (⟨st2.numBufs,
        st2.frames.set i ((st2.frames.getD i default).Set f p),
        st2.pool.set i (fRead p),
        htInsert st2.hashTbl (some f, p) i,
        st2.clockHand, st2.writeLog, st2.allocLog, st2.deleteLog⟩,
       .ok i)

/-- `BufMgr::unPinPage(file, pageNo, dirty)`. -/
def unPinPage (f : FileId) (p : PageId) (dirtyFlag : Bool) (st : BufState) :
    BufState × Option BufError :=
  match htLookup st.hashTbl (some f, p) with
  | none => (st, none)
  | some i =>
    let d := st.frames.getD i default
    if d.pinCnt = 0 then (st, some .pageNotPinned)
    else
      let d1 := { d with pinCnt := d.pinCnt - 1 }
      let d2 := if dirtyFlag then { d1 with dirty := true } else d1
      ({ st with frames := st.frames.set i d2 }, none)

/-- `BufMgr::allocPage(file, pageNo, page)`.  `newPage` models the page
returned by `file->allocatePage()`, which the source calls first; the call
is recorded in `allocLog`. -/
def allocPage (newPage : Page) (f : FileId) (st : BufState) :
    BufState × Except BufError (PageId × FrameId) :=
  let st0 := { st with allocLog := st.allocLog ++ [f] }
  let pageNo := newPage.page_number
  match allocBuf st0 with
  | (st1, .error e) => (st1, .error e)
  | (st1, .ok i) =>
    let d := st1.frames.getD i default
    let st2 :=
      if d.valid then
        match htRemove st1.hashTbl (d.file, d.pageNo) with
        | none => st1
        | some t => { st1 with hashTbl := t }
      else st1
    (⟨st2.numBufs,
      st2.frames.set i ((st2.frames.getD i default).Set f pageNo),
      st2.pool.set i newPage,
      htInsert st2.hashTbl (some f, pageNo) i,
      st2.clockHand, st2.writeLog, st2.allocLog, st2.deleteLog⟩,
     .ok (pageNo, i))

/-- `BufMgr::disposePage(file, PageNo)`.  Note the source `Clear()`s the
descriptor first and only then reads `pageNo` for the `remove` call; the
`HashNotFoundException` from either `lookup` or `remove` is swallowed, and
`file->deletePage(PageNo)` (logged in `deleteLog`) always runs. -/
def disposePage (f : FileId) (p : PageId) (st : BufState) : BufState × Option BufError :=
  let st1 :=
    match htLookup st.hashTbl (some f, p) with
    | none => st
    | some i =>
      let stc := { st with frames := st.frames.set i ((st.frames.getD i default).Clear) }
      match htRemove stc.hashTbl (some f, (stc.frames.getD i default).pageNo) with
      | none => stc
      | some t => { stc with hashTbl := t }
  ({ st1 with deleteLog := st1.deleteLog ++ [(f, p)] }, none)

/-- The documented data-model invariants of spec section 3, phrased over the
embedding (all quantifiers bounded, so the predicate is decidable on
concrete states): the tables have `numBufs` slots, descriptors carry their
index, every map entry names a valid in-range frame holding exactly its key,
map keys are duplicate-free, every valid frame is indexed by the map at its
own key, dirty frames are valid, and each valid frame's pool slot holds the
page its descriptor names. -/
def WellFormed (st : BufState) : Prop :=
  st.frames.length = st.numBufs ∧
  st.pool.length = st.numBufs ∧
  (∀ i < st.numBufs, (st.frames.getD i default).frameNo = i) ∧
  (∀ e ∈ st.hashTbl, e.2 < st.numBufs ∧ (st.frames.getD e.2 default).valid = true ∧
      (st.frames.getD e.2 default).file = e.1.1 ∧
      (st.frames.getD e.2 default).pageNo = e.1.2) ∧
  (st.hashTbl.map Prod.fst).Nodup ∧
  (∀ i < st.numBufs, (st.frames.getD i default).valid = true →
      htLookup st.hashTbl ((st.frames.getD i default).file,
        (st.frames.getD i default).pageNo) = some i) ∧
  (∀ i < st.numBufs, (st.frames.getD i default).dirty = true →
      (st.frames.getD i default).valid = true) ∧
  (∀ i < st.numBufs, (st.frames.getD i default).valid = true →
      (st.pool.getD i default).page_number = (st.frames.getD i default).pageNo)

instance (st : BufState) : Decidable (WellFormed st) := by
  unfold WellFormed
  infer_instance

/-! ### Concrete states used as inputs of closed theorems and witnesses -/

/-- One frame, caching page 5 of file 0, clean and unpinned. -/
def stOne : BufState :=
  ⟨1, [⟨0, some 0, 5, 0, false, true, true⟩], [⟨5, 0⟩], [((some 0, 5), 0)], 0, [], [], []⟩

/-- Three frames caching pages 1, 2, 3 of file 0: all valid, clean,
unpinned, refbits set; clock hand at its initial value `N - 1 = 2`. -/
def stClock : BufState :=
  ⟨3,
   [⟨0, some 0, 1, 0, false, true, true⟩,
    ⟨1, some 0, 2, 0, false, true, true⟩,
    ⟨2, some 0, 3, 0, false, true, true⟩],
   [⟨1, 0⟩, ⟨2, 0⟩, ⟨3, 0⟩],
   [((some 0, 1), 0), ((some 0, 2), 1), ((some 0, 3), 2)],
   2, [], [], []⟩

/-- One frame caching (file 0, page 5), pinned twice, clean. -/
def stPinned : BufState :=
  ⟨1, [⟨0, some 0, 5, 2, false, true, true⟩], [⟨5, 0⟩], [((some 0, 5), 0)], 0, [], [], []⟩

/-- The descriptor under the clock hand. -/
def handDesc (st : BufState) : BufDesc :=
  st.frames.getD st.clockHand default

/-! ### Error-classification lemmas -/

lemma flushCheck_error_eq (fo : Option FileId) (st : BufState) :
    ∀ (l : List Nat) (e : BufError), flushCheck fo st l = some e →
      e = .pagePinned ∨ e = .badBuffer := by
  intro l
  induction l with
  | nil => intro e h; simp [flushCheck] at h
  | cons i rest ih =>
    intro e h
    simp only [flushCheck] at h
    split at h
    · split at h
      · exact Or.inl (Option.some.inj h).symm
      · split at h
        · exact Or.inr (Option.some.inj h).symm
        · exact ih e h
    · exact ih e h

lemma flushPass2_error_eq (fo : Option FileId) :
    ∀ (l : List Nat) (st st' : BufState) (e : BufError),
      flushPass2 fo l st = (st', some e) → e = .hashNotFound := by
  intro l
  induction l with
  | nil => intro st st' e h; simp [flushPass2] at h
  | cons i rest ih =>
    intro st st' e h
    simp only [flushPass2] at h
    split at h
    · split at h
      · exact (Option.some.inj ((Prod.mk.injEq _ _ _ _).mp h).2).symm
      · exact ih _ _ _ h
    · exact ih _ _ _ h

lemma flushFile_error_cases (fo : Option FileId) (st : BufState) (e : BufError)
    (h : (flushFile fo st).2 = some e) :
    e = .pagePinned ∨ e = .badBuffer ∨ e = .hashNotFound := by
  unfold flushFile at h
  cases hc : flushCheck fo st (List.range st.numBufs) with
  | some e' =>
    rw [hc] at h
    have he : e' = e := by simpa using h
    subst he
    rcases flushCheck_error_eq fo st _ e' hc with h1 | h1
    · exact Or.inl h1
    · exact Or.inr (Or.inl h1)
  | none =>
    rw [hc] at h
    rcases hp : flushPass2 fo (List.range st.numBufs) st with ⟨st', r⟩
    rw [hp] at h
    simp at h
    subst h
    exact Or.inr (Or.inr (flushPass2_error_eq fo _ st st' e hp))

lemma allocBufLoop_error_cases :
    ∀ (fuel : Nat) (st st' : BufState) (e : BufError),
      allocBufLoop fuel st = (st', .error e) →
      e = .outOfFuel ∨ e = .pagePinned ∨ e = .badBuffer ∨ e = .hashNotFound := by
  intro fuel
  induction fuel with
  | zero =>
    intro st st' e h
    simp only [allocBufLoop] at h
    exact Or.inl ((Except.error.inj ((Prod.mk.injEq _ _ _ _).mp h).2).symm)
  | succ n ih =>
    intro st st' e h
    simp only [allocBufLoop] at h
    split at h
    · split at h
      · exact ih _ _ _ h
      · split at h
        · exact ih _ _ _ h
        · split at h
          · split at h
            · simp at h
            · rename_i st2 e2 hfl
              have h2 := ((Prod.mk.injEq _ _ _ _).mp h).2
              have he : e2 = e := Except.error.inj h2
              subst he
              exact Or.inr (flushFile_error_cases _ _ _ (by rw [hfl]))
          · simp at h
    · simp at h

/-! ### Claims -/

/-- Claim C1.  The claim states that after `disposePage(f, p)` on a cached
page the frame is cleared and the `(f, p)` map entry is gone.  The code
clears the frame first and only then reads `pageNo` (now zeroed) for the
`remove`, so it removes key `(f, 0)` instead of `(f, p)`, the resulting
`HashNotFoundException` is swallowed, and the `(f, p)` entry survives:
on the well-formed one-frame state `stOne` caching `(file 0, page 5)`,
`disposePage 0 5` clears the frame but the map still contains
`((some 0, 5), 0)`.  The spec's words ("Clear() the frame and remove the
map entry") are the evident intent; the code is a slip. -/
theorem disposePage_clears_frame_but_keeps_map_entry :
    WellFormed stOne ∧
    htLookup stOne.hashTbl (some 0, 5) = some 0 ∧
    (disposePage 0 5 stOne).1.frames.getD 0 default = (stOne.frames.getD 0 default).Clear ∧
    ((disposePage 0 5 stOne).1.frames.getD 0 default).valid = false ∧
    ((some 0, 5), 0) ∈ (disposePage 0 5 stOne).1.hashTbl := by
  decide

/-- Claim C2.  The claim states the map/frame invariant (every map entry
points to a valid frame holding exactly that key) at every public-entry
boundary.  `disposePage` violates it: starting from the well-formed state
`stOne`, after `disposePage 0 5` returns the map still contains the entry
`((some 0, 5), 0)` while frame 0 is invalid, so the boundary invariant
fails after a public call. -/
theorem disposePage_breaks_map_frame_invariant :
    WellFormed stOne ∧
    (∃ e ∈ (disposePage 0 5 stOne).1.hashTbl,
      ((disposePage 0 5 stOne).1.frames.getD e.2 default).valid = false) := by
  decide

/-- Claim C6.  With `N = 3`, the clock hand at its initial value `2`, and
three valid, clean, unpinned frames with refbits set holding pages
`(A,1), (A,2), (A,3)`, a `readPage(A, 4)` miss first clears the three
refbits in one revolution and then evicts frame 0 (the frame under the
first advance from the initial hand), which ends up holding page 4 with
`pin_count = 1`.  Stated as the exact result of `allocBuf` (refbits
cleared, hand back at 0, victim 0) and of the full `readPage`. -/
theorem readPage_miss_full_pool_evicts_frame_zero :
    allocBuf stClock =
      (⟨3,
        [⟨0, some 0, 1, 0, false, true, false⟩,
         ⟨1, some 0, 2, 0, false, true, false⟩,
         ⟨2, some 0, 3, 0, false, true, false⟩],
        [⟨1, 0⟩, ⟨2, 0⟩, ⟨3, 0⟩],
        [((some 0, 1), 0), ((some 0, 2), 1), ((some 0, 3), 2)],
        0, [], [], []⟩, .ok 0) ∧
    readPage (fun p => ⟨p, 0⟩) 0 4 stClock =
      (⟨3,
        [⟨0, some 0, 4, 1, false, true, true⟩,
         ⟨1, some 0, 2, 0, false, true, false⟩,
         ⟨2, some 0, 3, 0, false, true, false⟩],
        [⟨4, 0⟩, ⟨2, 0⟩, ⟨3, 0⟩],
        [((some 0, 4), 0), ((some 0, 2), 1), ((some 0, 3), 2)],
        0, [], [], []⟩, .ok 0) := by
  decide

/-- Claim C3.  Whenever `flushFile` raises `PagePinned` or `BadBuffer`, it
does so from the first (validation-only) loop, before any write-back: the
returned state — frame descriptors, pool, map, clock hand, and all
collaborator logs — is exactly the input state. -/
theorem flushFile_error_no_mutation :
    ∀ (st : BufState) (fo : Option FileId) (e : BufError),
      (flushFile fo st).2 = some e →
      e = .pagePinned ∨ e = .badBuffer →
      (flushFile fo st).1 = st ∧ (flushFile fo st).1.writeLog = st.writeLog := by
  intro st fo e h he
  unfold flushFile at *
  cases hc : flushCheck fo st (List.range st.numBufs) with
  | some e' => exact ⟨rfl, rfl⟩
  | none =>
    rw [hc] at h
    rcases hp : flushPass2 fo (List.range st.numBufs) st with ⟨st', r⟩
    rw [hp] at h
    simp only at h
    subst h
    have := flushPass2_error_eq fo _ st st' e hp
    rcases he with he | he <;> simp [he] at this

/-- Claim C3 witness: on the pinned one-frame state, `flushFile` raises
`PagePinned` and leaves the state untouched. -/
theorem flushFile_error_no_mutation_witness :
    (flushFile (some 0) stPinned).2 = some .pagePinned ∧
    (flushFile (some 0) stPinned).1 = stPinned := by
  refine ⟨by decide, (flushFile_error_no_mutation stPinned (some 0) .pagePinned
    (by decide) (Or.inl rfl)).1⟩

/-- Claim C4.  `allocBuf` raises `BufferExceeded` iff every frame is
pinned, and in that case the state — clock hand and all frame descriptors
included — is returned unchanged: the scan happens before any clock
advance. -/
theorem allocBuf_bufferExceeded_iff_all_pinned :
    ∀ st : BufState,
      ((allocBuf st).2 = .error .bufferExceeded ↔
        ∀ i < st.numBufs, 0 < (st.frames.getD i default).pinCnt) ∧
      ((allocBuf st).2 = .error .bufferExceeded → (allocBuf st).1 = st) := by
  intro st
  unfold allocBuf
  by_cases hall : (List.range st.numBufs).all
      (fun i => decide ((st.frames.getD i default).pinCnt ≠ 0)) = true
  · rw [if_pos hall]
    refine ⟨⟨fun _ => ?_, fun _ => rfl⟩, fun _ => rfl⟩
    intro i hi
    have := (List.all_eq_true.mp hall) i (List.mem_range.mpr hi)
    exact Nat.pos_of_ne_zero (by simpa using this)
  · rw [if_neg hall]
    constructor
    · constructor
      · intro h
        rcases hr : allocBufLoop (2 * st.numBufs) st with ⟨st', r⟩
        rw [hr] at h
        simp only at h
        subst h
        rcases allocBufLoop_error_cases _ _ _ _ hr with h | h | h | h <;> cases h
      · intro h
        exfalso
        apply hall
        rw [List.all_eq_true]
        intro i hi
        have := h i (List.mem_range.mp hi)
        simp [Nat.pos_iff_ne_zero] at this
        simpa using this
    · intro h
      rcases hr : allocBufLoop (2 * st.numBufs) st with ⟨st', r⟩
      rw [hr] at h
      simp only at h
      subst h
      rcases allocBufLoop_error_cases _ _ _ _ hr with h | h | h | h <;> cases h

/-- Claim C4 witness: on the fully pinned one-frame state, `allocBuf`
raises `BufferExceeded` and changes nothing; conversely the raise implies
all frames are pinned. -/
theorem allocBuf_bufferExceeded_iff_all_pinned_witness :
    (allocBuf stPinned).2 = .error .bufferExceeded ∧ (allocBuf stPinned).1 = stPinned := by
  have h := allocBuf_bufferExceeded_iff_all_pinned stPinned
  have he : (allocBuf stPinned).2 = .error .bufferExceeded := h.1.mpr (by decide)
  exact ⟨he, h.2 he⟩

/-- Claim C9.  `unPinPage(f, p, d)`: if `(f, p)` is unmapped, the call is a
silent no-op; if mapped to a frame with `pin_count = 0`, it raises
`PageNotPinned` and changes nothing; otherwise it decrements the pin count
and ors the dirty flag (so `dirty` is set when `d` is true and never
cleared). -/
theorem unPinPage_cases :
    ∀ (st : BufState) (f : FileId) (p : PageId) (dflag : Bool) (i : FrameId),
      (htLookup st.hashTbl (some f, p) = none → unPinPage f p dflag st = (st, none)) ∧
      (htLookup st.hashTbl (some f, p) = some i →
        (st.frames.getD i default).pinCnt = 0 →
        unPinPage f p dflag st = (st, some .pageNotPinned)) ∧
      (htLookup st.hashTbl (some f, p) = some i →
        (st.frames.getD i default).pinCnt ≠ 0 →
        unPinPage f p dflag st =
          ({ st with frames := st.frames.set i
                       ({ st.frames.getD i default with
                           pinCnt := (st.frames.getD i default).pinCnt - 1,
                           dirty := (st.frames.getD i default).dirty || dflag }) },
           none)) := by
  intro st f p dflag i
  refine ⟨fun h => ?_, fun h h0 => ?_, fun h h0 => ?_⟩
  · simp [unPinPage, h]
  · simp only [List.getD, List.get?_eq_getElem?] at h0
    simp [unPinPage, h, h0]
  · simp only [List.getD, List.get?_eq_getElem?] at h0
    cases dflag <;> simp [unPinPage, h, h0, List.getD]

/-- Claim C9 witness: the three cases at concrete inputs — unmapped page on
`stOne` (no-op), mapped unpinned page on `stOne` (`PageNotPinned`), and
mapped pinned page on `stPinned` (decrement and set dirty). -/
theorem unPinPage_cases_witness :
    unPinPage 1 1 false stOne = (stOne, none) ∧
    unPinPage 0 5 false stOne = (stOne, some .pageNotPinned) ∧
    unPinPage 0 5 true stPinned =
      ({ stPinned with frames := stPinned.frames.set 0
                         ({ stPinned.frames.getD 0 default with
                             pinCnt := (stPinned.frames.getD 0 default).pinCnt - 1,
                             dirty := (stPinned.frames.getD 0 default).dirty || true }) },
       none) := by
  refine ⟨(unPinPage_cases stOne 1 1 false 0).1 (by decide),
    (unPinPage_cases stOne 0 5 false 0).2.1 (by decide) (by decide),
    (unPinPage_cases stPinned 0 5 true 0).2.2 (by decide) (by decide)⟩

/-- Claim C10.  `allocPage` calls `file->allocatePage()` before acquiring a
frame, so on a fully pinned pool it raises `BufferExceeded` with the
on-disk allocation already performed (recorded in `allocLog`) while the
frame table, pool, map and clock hand are unchanged. -/
theorem allocPage_full_pool_allocates_then_raises :
    ∀ (st : BufState) (pg : Page) (f : FileId),
      (∀ i < st.numBufs, 0 < (st.frames.getD i default).pinCnt) →
      allocPage pg f st =
        ({ st with allocLog := st.allocLog ++ [f] }, .error .bufferExceeded) := by
  intro st pg f h
  have hcond : ((List.range st.numBufs).all
      (fun i => decide ((st.frames.getD i default).pinCnt ≠ 0))) = true := by
    rw [List.all_eq_true]
    intro i hi
    have := h i (List.mem_range.mp hi)
    simpa using Nat.pos_iff_ne_zero.mp this
  simp only [allocPage, allocBuf]
  rw [if_pos hcond]

/-- Claim C10 witness: on the fully pinned one-frame state, `allocPage`
logs the collaborator allocation and raises `BufferExceeded` leaving the
buffer structures unchanged. -/
theorem allocPage_full_pool_allocates_then_raises_witness :
    allocPage ⟨7, 0⟩ 1 stPinned =
      ({ stPinned with allocLog := stPinned.allocLog ++ [1] }, .error .bufferExceeded) :=
  allocPage_full_pool_allocates_then_raises stPinned ⟨7, 0⟩ 1 (by decide)

/-- One invalid frame; the clock loop must select it immediately. -/
def stInvalid : BufState :=
  ⟨1, [⟨0, none, 0, 0, false, false, false⟩], [⟨0, 0⟩], [], 0, [], [], []⟩

/-- Two frames: frame 0 valid, pinned, refbit clear; frame 1 invalid.
Hand at 1, so the next advance lands on the pinned frame 0. -/
def stSkip : BufState :=
  ⟨2,
   [⟨0, some 0, 1, 1, false, true, false⟩, ⟨1, none, 0, 0, false, false, false⟩],
   [⟨1, 0⟩, ⟨0, 0⟩], [((some 0, 1), 0)], 1, [], [], []⟩

/-- One valid, unpinned, refbit-clear, dirty frame with a consistent map:
the loop selects it after a successful write-back. -/
def stDirty : BufState :=
  ⟨1, [⟨0, some 0, 5, 0, true, true, false⟩], [⟨5, 7⟩], [((some 0, 5), 0)], 0, [], [], []⟩

/-- Like `stDirty` but with an empty map, so the write-back's
`hashTable->remove` raises `HashNotFound`, which propagates. -/
def stDirtyBad : BufState :=
  ⟨1, [⟨0, some 0, 5, 0, true, true, false⟩], [⟨5, 7⟩], [], 0, [], [], []⟩

/-- One valid, unpinned, refbit-clear, clean frame: selected with no
write-back. -/
def stCleanSel : BufState :=
  ⟨1, [⟨0, some 0, 5, 0, false, true, false⟩], [⟨5, 0⟩], [((some 0, 5), 0)], 0, [], [], []⟩

/-- Claim C5.  One iteration of the victim loop: the clock advances first;
then, for the descriptor under the advanced hand: an invalid frame is
returned immediately; a valid frame with refbit set has only its refbit
cleared and is skipped; a valid refbit-clear frame with `pin_count ≥ 1` is
skipped with no change at all (its refbit is not cleared); a valid,
unpinned, refbit-clear, dirty frame is returned after `flushFile` on its
owning file (propagating a write-back error if one arises); a valid,
unpinned, refbit-clear, clean frame is returned as is. -/
theorem allocBufLoop_iteration_cases :
    (∀ (fuel : Nat) (st : BufState),
      (handDesc (advanceClock st)).valid = false →
      allocBufLoop (fuel + 1) st =
        (advanceClock st, .ok (handDesc (advanceClock st)).frameNo)) ∧
    (∀ (fuel : Nat) (st : BufState),
      (handDesc (advanceClock st)).valid = true →
      (handDesc (advanceClock st)).refbit = true →
      allocBufLoop (fuel + 1) st =
        allocBufLoop fuel
          ({ advanceClock st with
              frames := (advanceClock st).frames.set (advanceClock st).clockHand
                          ({ handDesc (advanceClock st) with refbit := false }) })) ∧
    (∀ (fuel : Nat) (st : BufState),
      (handDesc (advanceClock st)).valid = true →
      (handDesc (advanceClock st)).refbit = false →
      (handDesc (advanceClock st)).pinCnt ≥ 1 →
      allocBufLoop (fuel + 1) st = allocBufLoop fuel (advanceClock st)) ∧
    (∀ (fuel : Nat) (st : BufState),
      (handDesc (advanceClock st)).valid = true →
      (handDesc (advanceClock st)).refbit = false →
      (handDesc (advanceClock st)).pinCnt = 0 →
      (handDesc (advanceClock st)).dirty = true →
      (flushFile (handDesc (advanceClock st)).file (advanceClock st)).2 = none →
      allocBufLoop (fuel + 1) st =
        ((flushFile (handDesc (advanceClock st)).file (advanceClock st)).1,
         .ok (((flushFile (handDesc (advanceClock st)).file (advanceClock st)).1.frames.getD
                (advanceClock st).clockHand default).frameNo))) ∧
    (∀ (fuel : Nat) (st : BufState) (e : BufError),
      (handDesc (advanceClock st)).valid = true →
      (handDesc (advanceClock st)).refbit = false →
      (handDesc (advanceClock st)).pinCnt = 0 →
      (handDesc (advanceClock st)).dirty = true →
      (flushFile (handDesc (advanceClock st)).file (advanceClock st)).2 = some e →
      allocBufLoop (fuel + 1) st =
        ((flushFile (handDesc (advanceClock st)).file (advanceClock st)).1, .error e)) ∧
    (∀ (fuel : Nat) (st : BufState),
      (handDesc (advanceClock st)).valid = true →
      (handDesc (advanceClock st)).refbit = false →
      (handDesc (advanceClock st)).pinCnt = 0 →
      (handDesc (advanceClock st)).dirty = false →
      allocBufLoop (fuel + 1) st =
        (advanceClock st, .ok (handDesc (advanceClock st)).frameNo)) := by
  refine ⟨fun fuel st h1 => ?_, fun fuel st h1 h2 => ?_, fun fuel st h1 h2 h3 => ?_,
    fun fuel st h1 h2 h3 h4 h5 => ?_, fun fuel st e h1 h2 h3 h4 h5 => ?_,
    fun fuel st h1 h2 h3 h4 => ?_⟩ <;>
    simp only [handDesc] at * <;>
    simp only [allocBufLoop]
  · rw [if_neg (by rw [h1]; simp)]
  · rw [if_pos h1, if_pos h2]
  · rw [if_pos h1, if_neg (by rw [h2]; simp), if_pos h3]
  · rw [if_pos h1, if_neg (by rw [h2]; simp), if_neg (by rw [h3]; simp), if_pos h4]
    rcases hf : flushFile ((advanceClock st).frames.getD (advanceClock st).clockHand
        default).file (advanceClock st) with ⟨st2, r⟩
    rw [hf] at h5
    simp only at h5
    subst h5
    rfl
  · rw [if_pos h1, if_neg (by rw [h2]; simp), if_neg (by rw [h3]; simp), if_pos h4]
    rcases hf : flushFile ((advanceClock st).frames.getD (advanceClock st).clockHand
        default).file (advanceClock st) with ⟨st2, r⟩
    rw [hf] at h5
    simp only at h5
    subst h5
    rfl
  · rw [if_pos h1, if_neg (by rw [h2]; simp), if_neg (by rw [h3]; simp), if_neg (by rw [h4]; simp)]

/-- Claim C5 witness: each loop case at a concrete state — immediate
return of the invalid frame of `stInvalid`; refbit clearing on `stClock`;
pinned skip on `stSkip` leaving its refbit untouched; dirty victim of
`stDirty` returned after a successful `flushFile`; the propagated
`HashNotFound` of `stDirtyBad`; and the clean victim of `stCleanSel`. -/
theorem allocBufLoop_iteration_cases_witness :
    allocBufLoop 1 stInvalid =
      (advanceClock stInvalid, .ok (handDesc (advanceClock stInvalid)).frameNo) ∧
    allocBufLoop 1 stClock =
      allocBufLoop 0
        ({ advanceClock stClock with
            frames := (advanceClock stClock).frames.set (advanceClock stClock).clockHand
                        ({ handDesc (advanceClock stClock) with refbit := false }) }) ∧
    allocBufLoop 1 stSkip = allocBufLoop 0 (advanceClock stSkip) ∧
    allocBufLoop 1 stDirty =
      ((flushFile (handDesc (advanceClock stDirty)).file (advanceClock stDirty)).1,
       .ok (((flushFile (handDesc (advanceClock stDirty)).file
              (advanceClock stDirty)).1.frames.getD
              (advanceClock stDirty).clockHand default).frameNo)) ∧
    allocBufLoop 1 stDirtyBad =
      ((flushFile (handDesc (advanceClock stDirtyBad)).file (advanceClock stDirtyBad)).1,
       .error .hashNotFound) ∧
    allocBufLoop 1 stCleanSel =
      (advanceClock stCleanSel, .ok (handDesc (advanceClock stCleanSel)).frameNo) := by
  refine ⟨allocBufLoop_iteration_cases.1 0 stInvalid (by decide),
    allocBufLoop_iteration_cases.2.1 0 stClock (by decide) (by decide),
    allocBufLoop_iteration_cases.2.2.1 0 stSkip (by decide) (by decide) (by decide),
    allocBufLoop_iteration_cases.2.2.2.1 0 stDirty (by decide) (by decide) (by decide)
      (by decide) (by decide),
    allocBufLoop_iteration_cases.2.2.2.2.1 0 stDirtyBad .hashNotFound (by decide)
      (by decide) (by decide) (by decide) (by decide),
    allocBufLoop_iteration_cases.2.2.2.2.2 0 stCleanSel (by decide) (by decide)
      (by decide) (by decide)⟩

/-! ### Termination of the victim loop (claim C7) -/

lemma getD_set_self {α : Type} (l : List α) (i : Nat) (a d : α) (h : i < l.length) :
    (l.set i a).getD i d = a := by
  induction l generalizing i with
  | nil => simp at h
  | cons x xs ih =>
    cases i with
    | zero => rfl
    | succ n => simpa [List.getD] using ih n (by simpa using h)

lemma getD_set_ne {α : Type} (l : List α) (i j : Nat) (a d : α) (h : i ≠ j) :
    (l.set i a).getD j d = l.getD j d := by
  induction l generalizing i j with
  | nil => rfl
  | cons x xs ih =>
    cases i with
    | zero =>
      cases j with
      | zero => exact absurd rfl h
      | succ m => rfl
    | succ n =>
      cases j with
      | zero => rfl
      | succ m => simpa [List.getD] using ih n m (fun hc => h (by rw [hc]))

lemma getD_default_of_le {α : Type} (l : List α) (i : Nat) (d : α) (h : l.length ≤ i) :
    l.getD i d = d := by
  induction l generalizing i with
  | nil => rfl
  | cons x xs ih =>
    cases i with
    | zero => simp at h
    | succ n => simpa [List.getD] using ih n (by simpa using h)

lemma lt_length_of_valid (l : List BufDesc) (i : Nat)
    (h : (l.getD i default).valid = true) : i < l.length := by
  by_contra hc
  push_neg at hc
  rw [getD_default_of_le l i default hc] at h
  have hd : (default : BufDesc).valid = false := rfl
  rw [hd] at h
  cases h

/-- Number of `advanceClock` steps needed, the hand being about to examine
frame `a`, until it examines frame `j`. -/
def distA (N a j : Nat) : Nat :=
  if a ≤ j then j - a + 1 else N - a + j + 1

lemma distA_pos (N a j : Nat) : 1 ≤ distA N a j := by
  unfold distA; split <;> omega

lemma distA_le (N a j : Nat) (ha : a < N) (hj : j < N) : distA N a j ≤ N := by
  unfold distA; split <;> omega

lemma distA_self (N j : Nat) : distA N j j = 1 := by
  simp [distA]

lemma distA_step (N a j : Nat) (ha : a < N) (hj : j < N) (hne : a ≠ j) :
    distA N ((a + 1) % N) j + 1 = distA N a j ∧ 2 ≤ distA N a j := by
  rcases Nat.lt_or_ge (a + 1) N with h | h
  · rw [Nat.mod_eq_of_lt h]
    unfold distA
    split <;> split <;> omega
  · have haN : a + 1 = N := by omega
    rw [haN, Nat.mod_self]
    unfold distA
    split <;> split <;> omega

/-- The decreasing measure of the victim loop, relative to an unpinned
frame `j`: steps until the hand examines `j`, plus a whole revolution if
`j`'s refbit still has to be cleared first. -/
def clockMeasure (st : BufState) (j : Nat) : Nat :=
  distA st.numBufs ((st.clockHand + 1) % st.numBufs) j +
    st.numBufs * (if (st.frames.getD j default).refbit then 1 else 0)

lemma allocBufLoop_no_outOfFuel :
    ∀ (fuel : Nat) (st : BufState) (j : Nat), j < st.numBufs →
      (st.frames.getD j default).pinCnt = 0 →
      clockMeasure st j ≤ fuel →
      (allocBufLoop fuel st).2 ≠ .error .outOfFuel := by
  intro fuel
  induction fuel with
  | zero =>
    intro st j hj hpin hm
    exfalso
    have := distA_pos st.numBufs ((st.clockHand + 1) % st.numBufs) j
    unfold clockMeasure at hm
    omega
  | succ n ih =>
    rintro ⟨N, fr, pool, tbl, hand, wl, al, dl⟩ j hj hpin hm
    simp only at hj hpin
    have hN : 0 < N := lt_of_le_of_lt (Nat.zero_le j) hj
    have hAlt : (hand + 1) % N < N := Nat.mod_lt _ hN
    unfold clockMeasure at hm
    simp only at hm
    simp only [allocBufLoop, advanceClock]
    by_cases hv : (fr.getD ((hand + 1) % N) default).valid = true
    · rw [if_pos hv]
      by_cases hr : (fr.getD ((hand + 1) % N) default).refbit = true
      · rw [if_pos hr]
        by_cases hAj : (hand + 1) % N = j
        · -- the hand has reached `j`: its refbit is cleared, a revolution remains
          have hlen : j < fr.length := lt_length_of_valid fr j (by rw [← hAj]; exact hv)
          apply ih _ j (by simpa using hj)
          · simp only [hAj]
            rw [getD_set_self _ _ _ _ hlen]
            exact hpin
          · unfold clockMeasure
            simp only [hAj]
            rw [getD_set_self _ _ _ _ hlen]
            rw [hAj] at hr
            rw [hAj, distA_self, hr] at hm
            have h1 : distA N ((j + 1) % N) j ≤ N := distA_le _ _ _ (Nat.mod_lt _ hN) hj
            simp at hm ⊢
            omega
        · -- the hand is elsewhere: one step closer to `j`, refbit of `j` untouched
          apply ih _ j (by simpa using hj)
          · simp only []
            rw [getD_set_ne _ _ _ _ _ hAj]
            exact hpin
          · have hstep := distA_step N ((hand + 1) % N) j hAlt hj hAj
            unfold clockMeasure
            simp only []
            rw [getD_set_ne _ _ _ _ _ hAj]
            omega
      · rw [if_neg hr]
        by_cases hp : (fr.getD ((hand + 1) % N) default).pinCnt ≥ 1
        · rw [if_pos hp]
          have hAj : (hand + 1) % N ≠ j := by
            intro hc
            rw [hc, hpin] at hp
            omega
          apply ih _ j (by simpa using hj)
          · exact hpin
          · have hstep := distA_step N ((hand + 1) % N) j hAlt hj hAj
            unfold clockMeasure
            simp only []
            omega
        · rw [if_neg hp]
          by_cases hd : (fr.getD ((hand + 1) % N) default).dirty = true
          · rw [if_pos hd]
            rcases hf : flushFile (fr.getD ((hand + 1) % N) default).file
                ⟨N, fr, pool, tbl, (hand + 1) % N, wl, al, dl⟩ with ⟨st2, r⟩
            cases r with
            | none => simp
            | some e =>
              simp only []
              intro hcon
              have he : e = .outOfFuel := Except.error.inj hcon
              subst he
              rcases flushFile_error_cases _ _ _ (by rw [hf]) with h | h | h <;> cases h
          · rw [if_neg hd]
            simp
    · rw [if_neg hv]
      simp

/-- Claim C7.  If some frame is unpinned, the victim loop of `allocBuf`
terminates within `2 * numBufs` clock advances (each unit of fuel of
`allocBufLoop` is exactly one `advanceClock()`): with fuel `2 * numBufs`
it never runs out, returning a victim or propagating a write-back error,
and hence `allocBuf` itself never reports fuel exhaustion. -/
theorem allocBuf_terminates_2N :
    ∀ (st : BufState) (j : Nat), j < st.numBufs →
      (st.frames.getD j default).pinCnt = 0 →
      (allocBufLoop (2 * st.numBufs) st).2 ≠ .error .outOfFuel ∧
      (allocBuf st).2 ≠ .error .outOfFuel := by
  intro st j hj hpin
  have hN : 0 < st.numBufs := lt_of_le_of_lt (Nat.zero_le j) hj
  have hm : clockMeasure st j ≤ 2 * st.numBufs := by
    unfold clockMeasure
    have h1 := distA_le st.numBufs ((st.clockHand + 1) % st.numBufs) j (Nat.mod_lt _ hN) hj
    split <;> omega
  have hloop := allocBufLoop_no_outOfFuel (2 * st.numBufs) st j hj hpin hm
  refine ⟨hloop, ?_⟩
  unfold allocBuf
  split
  · simp
  · exact hloop

/-- Claim C7 witness: on `stClock` (frame 0 unpinned), the loop with fuel
`2 * 3` returns without exhausting it. -/
theorem allocBuf_terminates_2N_witness :
    (allocBufLoop (2 * stClock.numBufs) stClock).2 ≠ .error .outOfFuel ∧
    (allocBuf stClock).2 ≠ .error .outOfFuel :=
  allocBuf_terminates_2N stClock 0 (by decide) (by decide)

/-! ### Successful `flushFile` (claim C8) -/

lemma htRemove_mem {t t' : HashTbl} {k : HashKey} (h : htRemove t k = some t') :
    ∀ e, e ∈ t' → e ∈ t := by
  induction t generalizing t' with
  | nil => exact Option.noConfusion h
  | cons x xs ih =>
    simp only [htRemove] at h
    split at h
    · cases h
      intro e he
      exact List.mem_cons_of_mem x he
    · cases hx : htRemove xs k with
      | none => rw [hx] at h; simp at h
      | some u =>
        rw [hx] at h
        simp only [Option.map_some'] at h
        cases h
        intro e he
        rcases List.mem_cons.mp he with he | he
        · exact he ▸ List.mem_cons_self x xs
        · exact List.mem_cons_of_mem x (ih hx e he)

lemma htRemove_keys_nodup {t t' : HashTbl} {k : HashKey}
    (hnd : (t.map Prod.fst).Nodup) (h : htRemove t k = some t') :
    (t'.map Prod.fst).Nodup := by
  induction t generalizing t' with
  | nil => exact Option.noConfusion h
  | cons x xs ih =>
    simp only [htRemove] at h
    simp only [List.map_cons, List.nodup_cons] at hnd
    split at h
    · cases h
      exact hnd.2
    · cases hx : htRemove xs k with
      | none => rw [hx] at h; simp at h
      | some u =>
        rw [hx] at h
        simp only [Option.map_some'] at h
        cases h
        simp only [List.map_cons, List.nodup_cons]
        refine ⟨fun hc => hnd.1 ?_, ih hnd.2 hx⟩
        rcases List.mem_map.mp hc with ⟨e, he, hee⟩
        exact List.mem_map.mpr ⟨e, htRemove_mem hx e he, hee⟩

lemma htRemove_key_not_mem {t t' : HashTbl} {k : HashKey}
    (hnd : (t.map Prod.fst).Nodup) (h : htRemove t k = some t') :
    k ∉ t'.map Prod.fst := by
  induction t generalizing t' with
  | nil => exact Option.noConfusion h
  | cons x xs ih =>
    simp only [htRemove] at h
    simp only [List.map_cons, List.nodup_cons] at hnd
    split at h
    · rename_i hk
      cases h
      rw [← hk]
      exact hnd.1
    · rename_i hk
      cases hx : htRemove xs k with
      | none => rw [hx] at h; simp at h
      | some u =>
        rw [hx] at h
        simp only [Option.map_some'] at h
        cases h
        simp only [List.map_cons, List.mem_cons]
        rintro (hc | hc)
        · exact hk hc.symm
        · exact ih hnd.2 hx hc

lemma flushPass2_ok_tbl (fo : Option FileId) :
    ∀ (l : List Nat) (st st' : BufState),
      flushPass2 fo l st = (st', none) →
      (∀ e, e ∈ st'.hashTbl → e ∈ st.hashTbl) ∧
      ((st.hashTbl.map Prod.fst).Nodup → (st'.hashTbl.map Prod.fst).Nodup) := by
  intro l
  induction l with
  | nil =>
    intro st st' h
    simp only [flushPass2] at h
    injection h with h1 h2
    subst h1
    exact ⟨fun e he => he, fun hn => hn⟩
  | cons i rest ih =>
    intro st st' h
    by_cases hdirty : (st.frames.getD i default).dirty = true
    all_goals
      simp only [flushPass2] at h
    · rw [if_pos hdirty] at h
      split at h
      · split at h
        · exact absurd (congrArg Prod.snd h) (by simp)
        · rename_i t heq
          obtain ⟨hsub, hnod⟩ := ih _ _ h
          exact ⟨fun e he => htRemove_mem heq e (hsub e he),
            fun hn => hnod (htRemove_keys_nodup hn heq)⟩
      · exact ih _ _ h
    · rw [if_neg hdirty] at h
      split at h
      · split at h
        · exact absurd (congrArg Prod.snd h) (by simp)
        · rename_i t heq
          obtain ⟨hsub, hnod⟩ := ih _ _ h
          exact ⟨fun e he => htRemove_mem heq e (hsub e he),
            fun hn => hnod (htRemove_keys_nodup hn heq)⟩
      · exact ih _ _ h

/-- The second `flushFile` loop on success: untouched components, the frame
table (matching frames cleared, others untouched), and the write-back log
(one write per matching dirty frame, in index order). -/
lemma flushPass2_ok_state (fo : Option FileId) :
    ∀ (l : List Nat) (st st' : BufState),
      flushPass2 fo l st = (st', none) →
      l.Nodup →
      (∀ i ∈ l, i < st.frames.length) →
      st'.numBufs = st.numBufs ∧
      st'.pool = st.pool ∧
      st'.clockHand = st.clockHand ∧
      st'.allocLog = st.allocLog ∧
      st'.deleteLog = st.deleteLog ∧
      st'.frames.length = st.frames.length ∧
      (∀ i ∈ l, st'.frames.getD i default =
        (if (st.frames.getD i default).file = fo
         then (st.frames.getD i default).Clear
         else st.frames.getD i default)) ∧
      (∀ i, i ∉ l → st'.frames.getD i default = st.frames.getD i default) ∧
      st'.writeLog = st.writeLog ++
        ((l.filter (fun i => ((st.frames.getD i default).file == fo) &&
            (st.frames.getD i default).dirty)).map
          (fun i => (fo, st.pool.getD i default))) := by
  intro l
  induction l with
  | nil =>
    intro st st' h _ _
    simp only [flushPass2] at h
    injection h with h1 h2
    subst h1
    simp
  | cons i rest ih =>
    intro st st' h hnd hlen
    have hilen : i < st.frames.length := hlen i (by simp)
    have hrestnd : rest.Nodup := (List.nodup_cons.mp hnd).2
    have hinotmem : i ∉ rest := (List.nodup_cons.mp hnd).1
    simp only [flushPass2] at h
    by_cases hfile : (st.frames.getD i default).file = fo
    · rw [if_pos hfile] at h
      by_cases hdirty : (st.frames.getD i default).dirty = true
      · rw [if_pos hdirty] at h
        dsimp only [] at h
        rw [getD_set_self _ _ _ _ hilen] at h
        split at h
        · exact absurd (congrArg Prod.snd h) (by simp)
        · rename_i t heq
          obtain ⟨ih1, ih2, ih3, ih4, ih5, ih6, ih7, ih8, ih9⟩ := ih _ _ h hrestnd
            (fun i' hi' => by
              simp only [List.length_set]
              exact hlen i' (List.mem_cons_of_mem i hi'))
          refine ⟨ih1, ih2, ih3, ih4, ih5, ?_, ?_, ?_, ?_⟩
          · rw [ih6]; simp [List.length_set]
          · intro i' hi'
            rcases List.mem_cons.mp hi' with rfl | hi'
            · rw [ih8 i' hinotmem]
              rw [getD_set_self _ _ _ _ (by simpa [List.length_set] using hilen)]
              rw [if_pos hfile]
              rfl
            · rw [ih7 i' hi']
              have hne : i ≠ i' := fun hc => hinotmem (hc ▸ hi')
              rw [getD_set_ne _ _ _ _ _ hne, getD_set_ne _ _ _ _ _ hne]
          · intro i' hi'
            have hne : i ≠ i' := fun hc => hi' (hc ▸ List.mem_cons_self i rest)
            rw [ih8 i' (fun hc => hi' (List.mem_cons_of_mem i hc))]
            rw [getD_set_ne _ _ _ _ _ hne, getD_set_ne _ _ _ _ _ hne]
          · dsimp only [] at ih9
            rw [ih9]
            have hfilter : rest.filter (fun i' =>
                ((((st.frames.set i ({st.frames.getD i default with dirty := false})).set i
                    ({st.frames.getD i default with dirty := false}).Clear).getD i' default).file
                  == fo) &&
                (((st.frames.set i ({st.frames.getD i default with dirty := false})).set i
                    ({st.frames.getD i default with dirty := false}).Clear).getD i' default).dirty) =
                rest.filter (fun i' => ((st.frames.getD i' default).file == fo) &&
                  (st.frames.getD i' default).dirty) := by
              apply List.filter_congr
              intro i' hi'
              have hne : i ≠ i' := fun hc => hinotmem (hc ▸ hi')
              rw [getD_set_ne _ _ _ _ _ hne, getD_set_ne _ _ _ _ _ hne]
            rw [hfilter]
            rw [List.filter_cons]
            have hP : (((st.frames.getD i default).file == fo) &&
                (st.frames.getD i default).dirty) = true := by
              rw [hfile, hdirty]
              simp
            rw [if_pos hP]
            rw [hfile]
            simp
      · rw [if_neg hdirty] at h
        split at h
        · exact absurd (congrArg Prod.snd h) (by simp)
        · rename_i t heq
          obtain ⟨ih1, ih2, ih3, ih4, ih5, ih6, ih7, ih8, ih9⟩ := ih _ _ h hrestnd
            (fun i' hi' => by
              simp only [List.length_set]
              exact hlen i' (List.mem_cons_of_mem i hi'))
          refine ⟨ih1, ih2, ih3, ih4, ih5, ?_, ?_, ?_, ?_⟩
          · rw [ih6]; simp [List.length_set]
          · intro i' hi'
            rcases List.mem_cons.mp hi' with rfl | hi'
            · rw [ih8 i' hinotmem]
              rw [getD_set_self _ _ _ _ hilen]
              rw [if_pos hfile]
            · rw [ih7 i' hi']
              have hne : i ≠ i' := fun hc => hinotmem (hc ▸ hi')
              rw [getD_set_ne _ _ _ _ _ hne]
          · intro i' hi'
            have hne : i ≠ i' := fun hc => hi' (hc ▸ List.mem_cons_self i rest)
            rw [ih8 i' (fun hc => hi' (List.mem_cons_of_mem i hc))]
            rw [getD_set_ne _ _ _ _ _ hne]
          · dsimp only [] at ih9
            rw [ih9]
            have hfilter : rest.filter (fun i' =>
                (((st.frames.set i (st.frames.getD i default).Clear).getD i' default).file
                  == fo) &&
                ((st.frames.set i (st.frames.getD i default).Clear).getD i' default).dirty) =
                rest.filter (fun i' => ((st.frames.getD i' default).file == fo) &&
                  (st.frames.getD i' default).dirty) := by
              apply List.filter_congr
              intro i' hi'
              have hne : i ≠ i' := fun hc => hinotmem (hc ▸ hi')
              rw [getD_set_ne _ _ _ _ _ hne]
            rw [hfilter]
            rw [List.filter_cons]
            have hd : (st.frames.getD i default).dirty = false :=
              Bool.eq_false_iff.mpr hdirty
            have hP : (((st.frames.getD i default).file == fo) &&
                (st.frames.getD i default).dirty) = false := by
              rw [hd]
              simp
            rw [hP]
            simp
    · rw [if_neg hfile] at h
      obtain ⟨ih1, ih2, ih3, ih4, ih5, ih6, ih7, ih8, ih9⟩ := ih _ _ h hrestnd
        (fun i' hi' => hlen i' (List.mem_cons_of_mem i hi'))
      refine ⟨ih1, ih2, ih3, ih4, ih5, ih6, ?_, ?_, ?_⟩
      · intro i' hi'
        rcases List.mem_cons.mp hi' with rfl | hi'
        · rw [ih8 i' hinotmem, if_neg hfile]
        · exact ih7 i' hi'
      · intro i' hi'
        exact ih8 i' (fun hc => hi' (List.mem_cons_of_mem i hc))
      · rw [ih9]
        rw [List.filter_cons]
        have hP : (((st.frames.getD i default).file == fo) &&
            (st.frames.getD i default).dirty) = false := by
          have : ((st.frames.getD i default).file == fo) = false := by
            rw [beq_eq_false_iff_ne]
            exact hfile
          rw [this]
          simp
        rw [hP]
        simp

/-- On success, the second `flushFile` loop has removed the map key of
every processed frame owned by `fo`. -/
lemma flushPass2_removes_keys (fo : Option FileId) :
    ∀ (l : List Nat) (st st' : BufState),
      flushPass2 fo l st = (st', none) →
      l.Nodup →
      (∀ i ∈ l, i < st.frames.length) →
      (st.hashTbl.map Prod.fst).Nodup →
      ∀ v ∈ l, (st.frames.getD v default).file = fo →
        (fo, (st.frames.getD v default).pageNo) ∉ st'.hashTbl.map Prod.fst := by
  intro l
  induction l with
  | nil =>
    intro st st' h _ _ _ v hv
    simp at hv
  | cons i rest ih =>
    intro st st' h hnd hlen hkeys v hv hvfile
    have hilen : i < st.frames.length := hlen i (by simp)
    have hinotmem : i ∉ rest := (List.nodup_cons.mp hnd).1
    have hrestnd : rest.Nodup := (List.nodup_cons.mp hnd).2
    simp only [flushPass2] at h
    by_cases hfile : (st.frames.getD i default).file = fo
    · rw [if_pos hfile] at h
      by_cases hdirty : (st.frames.getD i default).dirty = true
      · rw [if_pos hdirty] at h
        dsimp only [] at h
        rw [getD_set_self _ _ _ _ hilen] at h
        split at h
        · exact absurd (congrArg Prod.snd h) (by simp)
        · rename_i t heq
          rcases List.mem_cons.mp hv with rfl | hv'
          · intro hcon
            rcases List.mem_map.mp hcon with ⟨e, he, hek⟩
            have hsub := (flushPass2_ok_tbl fo rest _ _ h).1 e he
            have hnot := htRemove_key_not_mem hkeys heq
            exact hnot (hek ▸ List.mem_map_of_mem Prod.fst hsub)
          · have hne : i ≠ v := fun hc => hinotmem (hc ▸ hv')
            have hg : ((st.frames.set i
                  ({st.frames.getD i default with dirty := false})).set i
                  ({st.frames.getD i default with dirty := false}).Clear).getD v default =
                st.frames.getD v default := by
              rw [getD_set_ne _ _ _ _ _ hne, getD_set_ne _ _ _ _ _ hne]
            have hres := ih _ _ h hrestnd
              (fun i' hi' => by
                simp only [List.length_set]
                exact hlen i' (List.mem_cons_of_mem i hi'))
              (htRemove_keys_nodup hkeys heq) v hv'
              (by dsimp only []; rw [hg]; exact hvfile)
            dsimp only [] at hres
            rw [hg] at hres
            exact hres
      · rw [if_neg hdirty] at h
        split at h
        · exact absurd (congrArg Prod.snd h) (by simp)
        · rename_i t heq
          rcases List.mem_cons.mp hv with rfl | hv'
          · intro hcon
            rcases List.mem_map.mp hcon with ⟨e, he, hek⟩
            have hsub := (flushPass2_ok_tbl fo rest _ _ h).1 e he
            have hnot := htRemove_key_not_mem hkeys heq
            exact hnot (hek ▸ List.mem_map_of_mem Prod.fst hsub)
          · have hne : i ≠ v := fun hc => hinotmem (hc ▸ hv')
            have hg : ((st.frames.set i (st.frames.getD i default).Clear)).getD v default =
                st.frames.getD v default := by
              rw [getD_set_ne _ _ _ _ _ hne]
            have hres := ih _ _ h hrestnd
              (fun i' hi' => by
                simp only [List.length_set]
                exact hlen i' (List.mem_cons_of_mem i hi'))
              (htRemove_keys_nodup hkeys heq) v hv'
              (by dsimp only []; rw [hg]; exact hvfile)
            dsimp only [] at hres
            rw [hg] at hres
            exact hres
    · rw [if_neg hfile] at h
      rcases List.mem_cons.mp hv with rfl | hv'
      · exact absurd hvfile hfile
      · exact ih _ _ h hrestnd
          (fun i' hi' => hlen i' (List.mem_cons_of_mem i hi')) hkeys v hv' hvfile

lemma countP_range_eq_one (n i : Nat) (p : Nat → Bool) (hi : i < n)
    (h : ∀ j, j < n → (p j = true ↔ j = i)) :
    (List.range n).countP p = 1 := by
  induction n with
  | zero => omega
  | succ m ihm =>
    rw [List.range_succ, List.countP_append]
    by_cases him : i = m
    · subst him
      have h0 : (List.range i).countP p = 0 := by
        rw [List.countP_eq_zero]
        intro a ha hpa
        have halt := List.mem_range.mp ha
        have := (h a (by omega)).mp hpa
        omega
      have hp : p i = true := (h i (by omega)).mpr rfl
      simp [h0, List.countP_cons, hp]
    · have hi' : i < m := by omega
      rw [ihm hi' (fun j hj => h j (by omega))]
      have hp : p m = false := by
        by_contra hc
        rw [Bool.not_eq_false] at hc
        exact him ((h m (by omega)).mp hc).symm
      simp [List.countP_cons, hp]

lemma flushFile_ok_elim (fo : Option FileId) (st : BufState)
    (h : (flushFile fo st).2 = none) :
    flushPass2 fo (List.range st.numBufs) st = ((flushFile fo st).1, none) := by
  unfold flushFile at *
  cases hc : flushCheck fo st (List.range st.numBufs) with
  | some e =>
    rw [hc] at h
    simp at h
  | none =>
    rw [hc] at h
    dsimp only [] at h ⊢
    rcases hp : flushPass2 fo (List.range st.numBufs) st with ⟨st1, r⟩
    rw [hp] at h
    dsimp only [] at h
    rw [h]

/-- Claim C8, amended: restricted to states satisfying the documented
invariants (`WellFormed`).  If `flushFile` on file `F` returns successfully
from a well-formed state, then no frame owned by `F` is valid, every frame
that was valid, owned by `F`, and dirty before the call had its page
written to the file collaborator exactly once, and the map contains no
entry keyed on `F`. -/
theorem flushFile_ok_spec :
    ∀ (st : BufState) (F : FileId),
      WellFormed st →
      (flushFile (some F) st).2 = none →
      (∀ i < st.numBufs,
        ¬(((flushFile (some F) st).1.frames.getD i default).valid = true ∧
          ((flushFile (some F) st).1.frames.getD i default).file = some F)) ∧
      (∀ i < st.numBufs,
        (st.frames.getD i default).valid = true →
        (st.frames.getD i default).file = some F →
        (st.frames.getD i default).dirty = true →
        (((flushFile (some F) st).1.writeLog.drop st.writeLog.length).countP
          (fun ev => (ev.1 == some F) &&
            (ev.2.page_number == (st.frames.getD i default).pageNo))) = 1) ∧
      (∀ e ∈ (flushFile (some F) st).1.hashTbl, e.1.1 ≠ some F) := by
  intro st F hwf hok
  obtain ⟨hlen, hpoollen, hfno, hent, hkeys, hlook, hdv, hpg⟩ := hwf
  have hp2 := flushFile_ok_elim (some F) st hok
  have hlenl : ∀ i ∈ List.range st.numBufs, i < st.frames.length := fun i hi => by
    rw [hlen]; exact List.mem_range.mp hi
  obtain ⟨-, -, -, -, -, hflen, hfr_mem, hfr_not, hwl⟩ :=
    flushPass2_ok_state (some F) (List.range st.numBufs) st _ hp2
      (List.nodup_range _) hlenl
  refine ⟨?_, ?_, ?_⟩
  · intro i hi hcon
    obtain ⟨hval, hfile⟩ := hcon
    have hchar := hfr_mem i (List.mem_range.mpr hi)
    by_cases hf : (st.frames.getD i default).file = some F
    · rw [if_pos hf] at hchar
      rw [hchar] at hval
      simp [BufDesc.Clear] at hval
    · rw [if_neg hf] at hchar
      rw [hchar] at hfile
      exact hf hfile
  · intro i hi hval hfile hdirty
    rw [hwl, List.drop_left, List.countP_map, List.countP_filter]
    apply countP_range_eq_one st.numBufs i _ hi
    intro j hj
    constructor
    · intro hpj
      simp only [Function.comp, Bool.and_eq_true, beq_iff_eq] at hpj
      obtain ⟨⟨-, hpage⟩, hfj, hdj⟩ := hpj
      have hvj : (st.frames.getD j default).valid = true := hdv j hj hdj
      have hpgj := hpg j hj hvj
      have hpeq : (st.frames.getD j default).pageNo = (st.frames.getD i default).pageNo := by
        rw [← hpgj, hpage]
      have h1 := hlook j hj hvj
      have h2 := hlook i hi hval
      rw [hfj, hpeq] at h1
      rw [hfile] at h2
      exact Option.some.inj (h1.symm.trans h2)
    · rintro rfl
      simp only [Function.comp, Bool.and_eq_true, beq_iff_eq, eq_self_iff_true, true_and]
      exact ⟨hpg j hj hval, hfile, hdirty⟩
  · intro e he hcon
    have hsub := (flushPass2_ok_tbl (some F) _ _ _ hp2).1 e he
    obtain ⟨hv_lt, hv_valid, hv_file, hv_page⟩ := hent e hsub
    have hrem := flushPass2_removes_keys (some F) (List.range st.numBufs) st _ hp2
      (List.nodup_range _) hlenl hkeys e.2 (List.mem_range.mpr hv_lt)
      (by rw [hv_file, hcon])
    apply hrem
    have hkey : e.1 = (some F, (st.frames.getD e.2 default).pageNo) := by
      rw [hv_page]
      rw [← hcon]
    exact hkey ▸ List.mem_map_of_mem Prod.fst he

/-- Claim C8 counterexample for the claim as stated ("for every state"):
starting from the well-formed `stOne` and taking the state `disposePage`
actually produces (the reachable state with the stale `((0,5) ↦ 0)` map
entry and no frame owned by file 0), `flushFile` on file 0 returns
successfully yet the map still contains an entry keyed on file 0. -/
theorem flushFile_ok_stale_entry_survives :
    WellFormed stOne ∧
    (flushFile (some 0) (disposePage 0 5 stOne).1).2 = none ∧
    ((some 0, 5), 0) ∈ (flushFile (some 0) (disposePage 0 5 stOne).1).1.hashTbl := by
  decide

/-- Claim C8 witness: on the well-formed dirty one-frame state `stDirty`,
`flushFile` on file 0 succeeds; frame 0 is no longer owned-and-valid for
file 0, and the page of the dirty frame was written exactly once. -/
theorem flushFile_ok_spec_witness :
    ¬(((flushFile (some 0) stDirty).1.frames.getD 0 default).valid = true ∧
      ((flushFile (some 0) stDirty).1.frames.getD 0 default).file = some 0) ∧
    (((flushFile (some 0) stDirty).1.writeLog.drop stDirty.writeLog.length).countP
      (fun ev => (ev.1 == some 0) &&
        (ev.2.page_number == (stDirty.frames.getD 0 default).pageNo))) = 1 ∧
    (∀ e ∈ (flushFile (some 0) stDirty).1.hashTbl, e.1.1 ≠ some 0) := by
  have h := flushFile_ok_spec stDirty 0 (by decide) (by decide)
  exact ⟨h.1 0 (by decide), h.2.1 0 (by decide) (by decide) (by decide) (by decide), h.2.2⟩

end BadgerDB
